import Mathlib

/-!
Verification of the kqueue pollset backend
(`src/sofia/freeswitch/libs/apr/poll/unix/kqueue.c`).

The C file implements an I/O readiness pollset over kqueue: descriptor
records live on three intrusive rings (Active = `query_ring`, Dead =
`dead_ring`, Free = `free_ring`).  We embed the state shallowly: rings
become lists of record identifiers, the per-record `pfd` contents a
function from identifiers, and the kernel-side kqueue registration table
a list of `(fd, filter)` pairs.  Native `kevent` calls can fail for
environment reasons, so each operation takes oracle booleans saying
whether the corresponding native call succeeds; the list of native calls
actually issued is returned as a trace.
-/

namespace KqueuePollset

/-- Portable event mask bits (values from the APR poll header). -/
def APR_POLLIN : Nat := 1

def APR_POLLPRI : Nat := 2

def APR_POLLOUT : Nat := 4

def APR_POLLERR : Nat := 16

def APR_POLLHUP : Nat := 32

/-- kqueue read filter constant (BSD `EVFILT_READ`). -/
def EVFILT_READ : Int := -1

/-- kqueue write filter constant (BSD `EVFILT_WRITE`). -/
def EVFILT_WRITE : Int := -2

/-- kqueue end-of-file flag bit (BSD `EV_EOF`). -/
def EV_EOF : Nat := 0x8000

/-- kqueue error flag bit (BSD `EV_ERROR`). -/
def EV_ERROR : Nat := 0x4000

/-- Status results; `enomem` is the `APR_ENOMEM` value `fspr_pollset_add`
returns on a failed native registration (the BackendRejected class of the
spec), `notfound` is `APR_NOTFOUND`, `timeup` is `APR_TIMEUP`, and
`netosError e` is the translation `fspr_get_netos_error()` of the native
error `e` after a failed wait. -/
inductive Status where
  | success
  | enomem
  | notfound
  | timeup
  | netosError (e : Nat)
deriving DecidableEq, Repr

/-- One registered descriptor (`fspr_pollfd_t`).  `desc` is the identity of
the descriptor union member (`desc.s` and `desc.f` share the union's
storage, so one identity; `fspr_pollset_remove` matches records by
`descriptor->desc.s == ep->pfd.desc.s`).  `fd` is the OS descriptor number
stored in it: `fspr_pollset_add`/`remove` read `desc.s->socketdes` when
`desc_type == APR_POLL_SOCKET` and `desc.f->filedes` otherwise, both
modelled by this one field. -/
structure Pollfd where
  desc : Nat
  fd : Int
  reqevents : Nat
  rtnevents : Nat
deriving DecidableEq, Repr

instance : Inhabited Pollfd := ⟨⟨0, 0, 0, 0⟩⟩

/-- A native `kevent` registration call issued by add/remove:
`kevAdd fd filter` is `EV_SET(..., fd, filter, EV_ADD, ...)`,
`kevDelete fd filter` is `EV_SET(..., fd, filter, EV_DELETE, ...)`. -/
inductive NativeCall where
  | kevAdd (fd : Int) (filter : Int)
  | kevDelete (fd : Int) (filter : Int)
deriving DecidableEq, Repr

/-- The kernel-side kqueue registration table: which `(fd, filter)` watches
are currently registered.  `EV_ADD` on an existing pair replaces it, so the
table never holds duplicates. -/
def kqAdd (kq : List (Int × Int)) (fd filter : Int) : List (Int × Int) :=
  if (fd, filter) ∈ kq then kq else kq ++ [(fd, filter)]

def kqErase (kq : List (Int × Int)) (fd filter : Int) : List (Int × Int) :=
  kq.filter (fun p => p ≠ (fd, filter))

/-- The pollset state (`struct fspr_pollset_t` plus the kernel table).
Records are named by allocation identifiers `0, 1, ...`; `nextId` is the
number of records ever allocated from the pool, `pfdOf` gives each
record's current `pfd` contents, and the three rings hold identifiers with
the list head as the ring's first element.  `resultSet` is the
caller-visible result buffer. -/
structure PollsetState where
  nelts : Nat
  nalloc : Nat
  queryRing : List Nat
  freeRing : List Nat
  deadRing : List Nat
  pfdOf : Nat → Pollfd
  nextId : Nat
  kq : List (Int × Int)
  resultSet : List Pollfd

/-- `fspr_pollset_create`: all rings empty, counters zero, buffers sized
to `size` (allocation of the kqueue fd itself is environment-side). -/
def initState (size : Nat) : PollsetState :=
  { nelts := 0, nalloc := size, queryRing := [], freeRing := [], deadRing := [],
    pfdOf := fun _ => default, nextId := 0, kq := [], resultSet := [] }

/-- `get_kqueue_revent`: translate a native filter/flags pair into the
portable reported-events mask. -/
def get_kqueue_revent (event : Int) (flags : Nat) : Nat :=
  let rv : Nat := 0
  let rv := if event = EVFILT_READ then rv ||| APR_POLLIN else rv
  let rv := if event = EVFILT_WRITE then rv ||| APR_POLLOUT else rv
  let rv := if flags &&& EV_EOF ≠ 0 then rv ||| APR_POLLHUP else rv
  let rv := if flags &&& EV_ERROR ≠ 0 then rv ||| APR_POLLERR else rv
  rv

structure AddResult where
  state : PollsetState
  rv : Status
  calls : List NativeCall

/-- The record `fspr_pollset_add` obtains: the Free-ring head when the Free
ring is non-empty, otherwise a fresh allocation from the pool. -/
def addChosenElem (pollset : PollsetState) : Nat :=
  match pollset.freeRing with
  | e :: _ => e
  | [] => pollset.nextId

/-- Body of `fspr_pollset_add` after the record `elem` has been obtained
(and, in the Free-ring case, unlinked): store the descriptor into the
record, issue one `EV_ADD` per requested bit (the write registration only
runs while `rv == APR_SUCCESS`), then on success link `elem` to the Active
tail and bump `nelts`, else link it back to the Free tail. -/
def addWithElem (ps : PollsetState) (descriptor : Pollfd)
    (okRead okWrite : Bool) (elem : Nat) : AddResult :=
  let ps := { ps with pfdOf := fun i => if i = elem then descriptor else ps.pfdOf i }
  let fd := descriptor.fd
  let r1 : Status × List (Int × Int) × List NativeCall :=
    if descriptor.reqevents &&& APR_POLLIN ≠ 0 then
      if okRead then
        (Status.success, kqAdd ps.kq fd EVFILT_READ, [NativeCall.kevAdd fd EVFILT_READ])
      else
        (Status.enomem, ps.kq, [NativeCall.kevAdd fd EVFILT_READ])
    else (Status.success, ps.kq, [])
  let r2 : Status × List (Int × Int) × List NativeCall :=
    if descriptor.reqevents &&& APR_POLLOUT ≠ 0 ∧ r1.1 = Status.success then
      if okWrite then
        (Status.success, kqAdd r1.2.1 fd EVFILT_WRITE,
          r1.2.2 ++ [NativeCall.kevAdd fd EVFILT_WRITE])
      else
        (Status.enomem, r1.2.1, r1.2.2 ++ [NativeCall.kevAdd fd EVFILT_WRITE])
    else r1
  let ps := { ps with kq := r2.2.1 }
  if r2.1 = Status.success then
    { state := { ps with nelts := ps.nelts + 1, queryRing := ps.queryRing ++ [elem] },
      rv := r2.1, calls := r2.2.2 }
  else
    { state := { ps with freeRing := ps.freeRing ++ [elem] },
      rv := r2.1, calls := r2.2.2 }

/-- `fspr_pollset_add`.  `okRead`/`okWrite` are the outcomes of the two
potential native `kevent(EV_ADD)` calls (environment oracles). -/
def fspr_pollset_add (pollset : PollsetState) (descriptor : Pollfd)
    (okRead okWrite : Bool) : AddResult :=
  match pollset.freeRing with
  | e :: rest =>
      addWithElem { pollset with freeRing := rest } descriptor okRead okWrite e
  | [] =>
      addWithElem { pollset with nextId := pollset.nextId + 1 } descriptor okRead
        okWrite pollset.nextId

structure RemoveResult where
  state : PollsetState
  rv : Status
  calls : List NativeCall

/-- The Active-ring scan of `fspr_pollset_remove`: walk the ring from the
front, and at the first record whose `pfd.desc.s` equals the argument's,
unlink it (returning the matched record and the remaining ring). -/
def scanRemove (pfdOf : Nat → Pollfd) (d : Nat) : List Nat → Option (Nat × List Nat)
  | [] => none
  | e :: rest =>
      if (pfdOf e).desc = d then some (e, rest)
      else
        match scanRemove pfdOf d rest with
        | some (m, rest2) => some (m, e :: rest2)
        | none => none

/-- `fspr_pollset_remove`.  One native `kevent(EV_DELETE)` per requested
bit (the write delete only runs while `rv == APR_SUCCESS`); a failed
delete sets `rv = APR_NOTFOUND`.  Then the Active ring is scanned and the
first match is moved to the Dead-ring tail; `rv` is returned as is. -/
def fspr_pollset_remove (pollset : PollsetState) (descriptor : Pollfd)
    (okRead okWrite : Bool) : RemoveResult :=
  let fd := descriptor.fd
  let r1 : Status × List (Int × Int) × List NativeCall :=
    if descriptor.reqevents &&& APR_POLLIN ≠ 0 then
      if okRead then
        (Status.success, kqErase pollset.kq fd EVFILT_READ,
          [NativeCall.kevDelete fd EVFILT_READ])
      else
        (Status.notfound, pollset.kq, [NativeCall.kevDelete fd EVFILT_READ])
    else (Status.success, pollset.kq, [])
  let r2 : Status × List (Int × Int) × List NativeCall :=
    if descriptor.reqevents &&& APR_POLLOUT ≠ 0 ∧ r1.1 = Status.success then
      if okWrite then
        (r1.1, kqErase r1.2.1 fd EVFILT_WRITE,
          r1.2.2 ++ [NativeCall.kevDelete fd EVFILT_WRITE])
      else
        (Status.notfound, r1.2.1, r1.2.2 ++ [NativeCall.kevDelete fd EVFILT_WRITE])
    else r1
  match scanRemove pollset.pfdOf descriptor.desc pollset.queryRing with
  | some (ep, q) =>
      { state := { pollset with kq := r2.2.1, queryRing := q,
                                deadRing := pollset.deadRing ++ [ep] },
        rv := r2.1, calls := r2.2.2 }
  | none => { state := { pollset with kq := r2.2.1 }, rv := r2.1, calls := r2.2.2 }

/-- Modelled from the spec: the time accessor macros `fspr_time_sec` and
`fspr_time_usec`/`fspr_time_msec` live in `fspr_time.h`, which is not part
of the given sources.  Per APR's documented time representation, a time
value counts microseconds, `fspr_time_sec t` is its whole-seconds part. -/
def fspr_time_sec (t : Int) : Int := t / 1000000

/-- Modelled from the spec: `fspr_time_msec t` (from `fspr_time.h`, not in
the given sources) is the milliseconds sub-component of the microsecond
time value `t`, that is `(t / 1000) % 1000`. -/
def fspr_time_msec (t : Int) : Int := (t / 1000) % 1000

/-- One entry of the native event buffer (`struct kevent`) as filled by
the wait call: the opaque user-data tag (a record identifier here, a
`pfd_elem_t *` in C), the filter, and the flags. -/
structure KEvent where
  udata : Nat
  filter : Int
  flags : Nat
deriving DecidableEq, Repr

/-- Outcome of the blocking native `kevent` wait call (environment
oracle): `err e` is a `-1` return with translated native error `e`;
`events evs` is a return of `evs.length` (which is `≥ 0`) with the event
buffer holding `evs`. -/
inductive WaitResult where
  | err (e : Nat)
  | events (evs : List KEvent)

structure PollResult where
  state : PollsetState
  rv : Status
  num : Int
  descOut : Option (List Pollfd)
  tvptr : Option (Int × Int)

/-- `fspr_pollset_poll`.  Converts the timeout to the `timespec` handed to
the native wait (`NULL` for a negative timeout), records the wait's return
in `*num`, then branches on it: negative return translates the native
error, zero returns `APR_TIMEUP`, positive fills the first `N` result
slots from the records resolved through each event's `udata` tag and (when
`descriptors` was passed) points it at the result buffer.  On every
outcome the Dead ring is concatenated onto the Free-ring tail. -/
def fspr_pollset_poll (pollset : PollsetState) (timeout : Int)
    (w : WaitResult) (wantDescriptors : Bool) : PollResult :=
  let tvptr : Option (Int × Int) :=
    if timeout < 0 then none
    else some (fspr_time_sec timeout, fspr_time_msec timeout)
  let ret : Int :=
    match w with
    | WaitResult.err _ => -1
    | WaitResult.events evs => evs.length
  let r : Status × PollsetState × Option (List Pollfd) :=
    match w with
    | WaitResult.err e => (Status.netosError e, pollset, none)
    | WaitResult.events evs =>
        if evs.length = 0 then (Status.timeup, pollset, none)
        else
          let filled := evs.map fun ke =>
            { pollset.pfdOf ke.udata with
                rtnevents := get_kqueue_revent ke.filter ke.flags }
          let ps := { pollset with
            resultSet := filled ++ pollset.resultSet.drop filled.length }
          (Status.success, ps, if wantDescriptors then some ps.resultSet else none)
  let ps := r.2.1
  let ps := { ps with freeRing := ps.freeRing ++ ps.deadRing, deadRing := [] }
  { state := ps, rv := r.1, num := ret, descOut := r.2.2, tvptr := tvptr }

/-- One caller-visible operation on a pollset, with its environment
oracles. -/
inductive Op where
  | add (d : Pollfd) (okRead okWrite : Bool)
  | remove (d : Pollfd) (okRead okWrite : Bool)
  | poll (timeout : Int) (w : WaitResult) (wantDesc : Bool)

def runOp (ps : PollsetState) : Op → PollsetState
  | Op.add d okR okW => (fspr_pollset_add ps d okR okW).state
  | Op.remove d okR okW => (fspr_pollset_remove ps d okR okW).state
  | Op.poll t w wd => (fspr_pollset_poll ps t w wd).state

def runOps (ps : PollsetState) : List Op → PollsetState
  | [] => ps
  | op :: rest => runOps (runOp ps op) rest

/-- How many of the adds in an operation sequence return `APR_SUCCESS`
(each of those executes `pollset->nelts++`). -/
def countSuccessfulAdds (ps : PollsetState) : List Op → Nat
  | [] => 0
  | Op.add d okR okW :: rest =>
      (if (fspr_pollset_add ps d okR okW).rv = Status.success then 1 else 0)
        + countSuccessfulAdds (fspr_pollset_add ps d okR okW).state rest
  | Op.remove d okR okW :: rest =>
      countSuccessfulAdds (fspr_pollset_remove ps d okR okW).state rest
  | Op.poll t w wd :: rest =>
      countSuccessfulAdds (fspr_pollset_poll ps t w wd).state rest

/-- All ring members, Active then Dead then Free. -/
def ringElems (ps : PollsetState) : List Nat :=
  ps.queryRing ++ ps.deadRing ++ ps.freeRing

/-- The ring invariant: no record sits on two rings (or twice on one
ring), and the rings together hold exactly the records ever allocated
(identifiers `0 .. nextId - 1`). -/
def RingInv (ps : PollsetState) : Prop :=
  (ringElems ps).Nodup ∧ ∀ i, i ∈ ringElems ps ↔ i < ps.nextId

/-! ## Claim theorems -/

/-- C4: on every poll outcome (native error, timeout, or success), the whole
Dead ring is concatenated onto the tail of the Free ring and the Dead ring
is left empty; the equality of lists means no record is dropped or
duplicated by the splice, and the Active ring is untouched. -/
theorem C4_dead_to_free_splice (pollset : PollsetState) (timeout : Int)
    (w : WaitResult) (wd : Bool) :
    (fspr_pollset_poll pollset timeout w wd).state.deadRing = [] ∧
    (fspr_pollset_poll pollset timeout w wd).state.freeRing
      = pollset.freeRing ++ pollset.deadRing ∧
    (fspr_pollset_poll pollset timeout w wd).state.queryRing = pollset.queryRing := by
  cases w with
  | err e => simp [fspr_pollset_poll]
  | events evs =>
      simp only [fspr_pollset_poll]
      split <;> simp

/-- C9: `get_kqueue_revent` sets the readable bit iff the native filter is
the read filter, the writable bit iff it is the write filter, the hangup
bit iff the end-of-file flag is present, and the error bit iff the error
flag is present; the bits are independent, so one native event can report
hangup and error together. -/
theorem C9_event_translation (event : Int) (flags : Nat) :
    (get_kqueue_revent event flags &&& APR_POLLIN ≠ 0 ↔ event = EVFILT_READ) ∧
    (get_kqueue_revent event flags &&& APR_POLLOUT ≠ 0 ↔ event = EVFILT_WRITE) ∧
    (get_kqueue_revent event flags &&& APR_POLLHUP ≠ 0 ↔ flags &&& EV_EOF ≠ 0) ∧
    (get_kqueue_revent event flags &&& APR_POLLERR ≠ 0 ↔ flags &&& EV_ERROR ≠ 0) := by
  unfold get_kqueue_revent
  split_ifs <;> simp_all <;> decide

/-- C10: an add whose interest mask has neither the readable nor the
writable bit issues no native registration, returns success, appends the
obtained record to the Active-ring tail, increments `nelts`, and leaves
the kernel table unchanged. -/
theorem C10_empty_mask_add (ps : PollsetState) (d : Pollfd) (okR okW : Bool)
    (h1 : d.reqevents &&& APR_POLLIN = 0) (h2 : d.reqevents &&& APR_POLLOUT = 0) :
    (fspr_pollset_add ps d okR okW).rv = Status.success ∧
    (fspr_pollset_add ps d okR okW).calls = [] ∧
    (fspr_pollset_add ps d okR okW).state.nelts = ps.nelts + 1 ∧
    (fspr_pollset_add ps d okR okW).state.queryRing
      = ps.queryRing ++ [addChosenElem ps] ∧
    (fspr_pollset_add ps d okR okW).state.kq = ps.kq := by
  cases hf : ps.freeRing <;>
    simp [fspr_pollset_add, addWithElem, addChosenElem, hf, h1, h2]

/-- Witness for C10 at a concrete input: mask `APR_POLLPRI` has neither
the readable nor the writable bit. -/
theorem C10_empty_mask_add_witness :
    (⟨1, 7, APR_POLLPRI, 0⟩ : Pollfd).reqevents &&& APR_POLLIN = 0 ∧
    (fspr_pollset_add (initState 4) ⟨1, 7, APR_POLLPRI, 0⟩ true true).rv
      = Status.success ∧
    (fspr_pollset_add (initState 4) ⟨1, 7, APR_POLLPRI, 0⟩ true true).calls = [] := by
  refine ⟨by decide, ?_, ?_⟩
  · exact (C10_empty_mask_add (initState 4) ⟨1, 7, APR_POLLPRI, 0⟩ true true
      (by decide) (by decide)).1
  · exact (C10_empty_mask_add (initState 4) ⟨1, 7, APR_POLLPRI, 0⟩ true true
      (by decide) (by decide)).2.1

/-- C1 counterexample: a concrete add with both the readable and writable
bits whose read-filter registration succeeds and whose write-filter
registration fails returns the BackendRejected-class error, yet the native
read watch for the descriptor remains registered — the claimed rollback of
the already-successful read-filter registration does not happen. -/
theorem C1_no_rollback_cex :
    (fspr_pollset_add (initState 4)
        ⟨1, 7, APR_POLLIN ||| APR_POLLOUT, 0⟩ true false).rv = Status.enomem ∧
    ((7 : Int), EVFILT_READ)
      ∈ (fspr_pollset_add (initState 4)
          ⟨1, 7, APR_POLLIN ||| APR_POLLOUT, 0⟩ true false).state.kq := by
  decide

/-- C1 amended: if any native registration in add fails, the record is
placed on the Free-ring tail and not on the Active ring, `nelts` is not
incremented, and the call returns the BackendRejected-class error
(`APR_ENOMEM`); however an already-successful read-filter registration is
not undone — the native read watch remains registered. -/
theorem C1_amended_failed_add (ps : PollsetState) (d : Pollfd) (okR okW : Bool)
    (h : (fspr_pollset_add ps d okR okW).rv ≠ Status.success) :
    (fspr_pollset_add ps d okR okW).rv = Status.enomem ∧
    (fspr_pollset_add ps d okR okW).state.queryRing = ps.queryRing ∧
    (fspr_pollset_add ps d okR okW).state.nelts = ps.nelts ∧
    (fspr_pollset_add ps d okR okW).state.freeRing
      = ps.freeRing.drop 1 ++ [addChosenElem ps] ∧
    (d.reqevents &&& APR_POLLIN ≠ 0 → okR = true →
      (d.fd, EVFILT_READ) ∈ (fspr_pollset_add ps d okR okW).state.kq) := by
  cases hf : ps.freeRing <;>
    simp only [fspr_pollset_add, addWithElem, addChosenElem, hf] at h ⊢ <;>
    split_ifs at h ⊢ <;> simp_all [kqAdd] <;> split_ifs <;> simp_all

/-- Witness for the amended C1 at a concrete failed add. -/
theorem C1_amended_failed_add_witness :
    (fspr_pollset_add (initState 4) ⟨2, 9, 5, 0⟩ true false).rv ≠ Status.success ∧
    (fspr_pollset_add (initState 4) ⟨2, 9, 5, 0⟩ true false).rv = Status.enomem := by
  exact ⟨by decide,
    (C1_amended_failed_add (initState 4) ⟨2, 9, 5, 0⟩ true false (by decide)).1⟩

/-- C3 counterexample: removing a never-added descriptor whose native
unwatch fails (as `kevent(EV_DELETE)` does for an unregistered
descriptor) returns `APR_NOTFOUND`, not success — the per-bit unwatch
failure is surfaced as the operation's result. -/
theorem C3_remove_status_cex :
    (fspr_pollset_remove (initState 4) ⟨1, 7, APR_POLLIN, 0⟩ false true).rv
      = Status.notfound ∧
    (fspr_pollset_remove (initState 4) ⟨1, 7, APR_POLLIN, 0⟩ false true).rv
      ≠ Status.success := by
  decide

/-- C3 amended: remove returns either success or `APR_NOTFOUND` (never a
harder failure); it returns success exactly when every requested per-bit
native unwatch succeeded; the Active-ring scan and the move to Dead happen
regardless of the unwatch outcomes; and an unmatched descriptor causes no
ring change. -/
theorem C3_amended_remove_status (ps : PollsetState) (d : Pollfd) (okR okW : Bool) :
    ((fspr_pollset_remove ps d okR okW).rv = Status.success ∨
     (fspr_pollset_remove ps d okR okW).rv = Status.notfound) ∧
    ((fspr_pollset_remove ps d okR okW).rv = Status.success ↔
      ((d.reqevents &&& APR_POLLIN ≠ 0 → okR = true) ∧
       (d.reqevents &&& APR_POLLOUT ≠ 0 → okW = true))) ∧
    ((fspr_pollset_remove ps d okR okW).state.queryRing
        = (fspr_pollset_remove ps d true true).state.queryRing ∧
     (fspr_pollset_remove ps d okR okW).state.deadRing
        = (fspr_pollset_remove ps d true true).state.deadRing) ∧
    (scanRemove ps.pfdOf d.desc ps.queryRing = none →
      (fspr_pollset_remove ps d okR okW).state.queryRing = ps.queryRing ∧
      (fspr_pollset_remove ps d okR okW).state.deadRing = ps.deadRing) := by
  cases hs : scanRemove ps.pfdOf d.desc ps.queryRing <;>
    simp only [fspr_pollset_remove, hs] <;>
    split_ifs <;> simp_all

/-- Witness for the amended C3: the empty pollset's Active ring has no
match, so its remove leaves the rings unchanged. -/
theorem C3_amended_remove_status_witness :
    scanRemove (initState 4).pfdOf 1 (initState 4).queryRing = none ∧
    (fspr_pollset_remove (initState 4) ⟨1, 7, APR_POLLIN, 0⟩ false true).state.queryRing
      = (initState 4).queryRing := by
  refine ⟨by decide, ?_⟩
  exact ((C3_amended_remove_status (initState 4) ⟨1, 7, APR_POLLIN, 0⟩ false
    true).2.2.2 (by decide)).1

/-- C7 counterexample: a remove with both bits requested whose read-filter
unwatch fails issues only the read-filter `EV_DELETE`; the write-filter
unwatch is not issued, contrary to the claim. -/
theorem C7_write_unwatch_skipped_cex :
    (fspr_pollset_remove (initState 4)
        ⟨1, 7, APR_POLLIN ||| APR_POLLOUT, 0⟩ false true).calls
      = [NativeCall.kevDelete 7 EVFILT_READ] ∧
    NativeCall.kevDelete 7 EVFILT_WRITE
      ∉ (fspr_pollset_remove (initState 4)
          ⟨1, 7, APR_POLLIN ||| APR_POLLOUT, 0⟩ false true).calls := by
  decide

/-- C7 amended: remove issues one native unwatch per requested bit, except
that the write-filter unwatch is skipped when a requested read-filter
unwatch failed (the write delete runs only while `rv == APR_SUCCESS`). -/
theorem C7_amended_unwatch_calls (ps : PollsetState) (d : Pollfd) (okR okW : Bool) :
    (fspr_pollset_remove ps d okR okW).calls
      = (if d.reqevents &&& APR_POLLIN ≠ 0
          then [NativeCall.kevDelete d.fd EVFILT_READ] else []) ++
        (if d.reqevents &&& APR_POLLOUT ≠ 0 ∧
            (d.reqevents &&& APR_POLLIN = 0 ∨ okR = true)
          then [NativeCall.kevDelete d.fd EVFILT_WRITE] else []) := by
  cases hs : scanRemove ps.pfdOf d.desc ps.queryRing <;>
    simp only [fspr_pollset_remove, hs] <;>
    split_ifs <;> simp_all

/-- C8: the timeout conversion stores the milliseconds component, not the
sub-second remainder in nanoseconds, into the timespec's nanoseconds
field: at a timeout of 1500000 µs the timespec handed to the native wait
is `(1 s, 500 ns)`, which denotes 1000000500 ns rather than the requested
1500000000 ns.  A negative timeout is passed as a null timespec. -/
theorem C8_timeout_conversion_bug :
    (fspr_pollset_poll (initState 4) 1500000 (WaitResult.events []) false).tvptr
      = some (1, 500) ∧
    (1 * 1000000000 + 500 : Int) ≠ 1500000 * 1000 ∧
    (fspr_pollset_poll (initState 4) (-1) (WaitResult.events []) false).tvptr
      = none := by
  decide

/-- C6: poll's outcome mapping.  A negative native return yields the
translated native error (with the raw return stored through `num`); a zero
return yields `APR_TIMEUP` with `num = 0`; a positive return of `N` events
yields success, `num = N`, the first `N` result-buffer slots filled from
the records resolved through each event's user-data tag with translated
reported events, and, when requested, the descriptors output pointing at
the result buffer. -/
theorem C6_poll_outcomes (ps : PollsetState) (t : Int) (wd : Bool) :
    (∀ e, (fspr_pollset_poll ps t (WaitResult.err e) wd).rv = Status.netosError e ∧
          (fspr_pollset_poll ps t (WaitResult.err e) wd).num = -1) ∧
    ((fspr_pollset_poll ps t (WaitResult.events []) wd).rv = Status.timeup ∧
     (fspr_pollset_poll ps t (WaitResult.events []) wd).num = 0) ∧
    (∀ evs : List KEvent, evs ≠ [] →
      (fspr_pollset_poll ps t (WaitResult.events evs) wd).rv = Status.success ∧
      (fspr_pollset_poll ps t (WaitResult.events evs) wd).num = evs.length ∧
      ((fspr_pollset_poll ps t (WaitResult.events evs) wd).state.resultSet.take
          evs.length
        = evs.map fun ke =>
            { ps.pfdOf ke.udata with
                rtnevents := get_kqueue_revent ke.filter ke.flags }) ∧
      ((fspr_pollset_poll ps t (WaitResult.events evs) wd).descOut
        = if wd then
            some (fspr_pollset_poll ps t (WaitResult.events evs) wd).state.resultSet
          else none)) := by
  refine ⟨fun e => by simp [fspr_pollset_poll], by simp [fspr_pollset_poll],
    fun evs hevs => ?_⟩
  have hlen : evs.length ≠ 0 := by simpa using hevs
  refine ⟨by simp [fspr_pollset_poll, hlen], by simp [fspr_pollset_poll, hlen],
    by simp [fspr_pollset_poll, hlen], by simp [fspr_pollset_poll, hlen]⟩

/-- Witness for C6 at a concrete one-event wait. -/
theorem C6_poll_outcomes_witness :
    ([⟨0, EVFILT_READ, 0⟩] : List KEvent) ≠ [] ∧
    (fspr_pollset_poll (initState 4) 0
        (WaitResult.events [⟨0, EVFILT_READ, 0⟩]) true).rv = Status.success := by
  exact ⟨by decide,
    ((C6_poll_outcomes (initState 4) 0 true).2.2 [⟨0, EVFILT_READ, 0⟩]
      (by decide)).1⟩

/-! ## Count bookkeeping -/

theorem addWithElem_nelts (ps : PollsetState) (d : Pollfd) (okR okW : Bool)
    (elem : Nat) :
    (addWithElem ps d okR okW elem).state.nelts
      = ps.nelts
        + if (addWithElem ps d okR okW elem).rv = Status.success then 1 else 0 := by
  by_cases h1 : d.reqevents &&& APR_POLLIN = 0 <;>
    by_cases h2 : d.reqevents &&& APR_POLLOUT = 0 <;>
    cases okR <;> cases okW <;> simp [addWithElem, h1, h2]

theorem add_nelts (ps : PollsetState) (d : Pollfd) (okR okW : Bool) :
    (fspr_pollset_add ps d okR okW).state.nelts
      = ps.nelts
        + if (fspr_pollset_add ps d okR okW).rv = Status.success then 1 else 0 := by
  unfold fspr_pollset_add
  cases hf : ps.freeRing with
  | nil => exact addWithElem_nelts _ d okR okW _
  | cons e rest => exact addWithElem_nelts _ d okR okW _

theorem remove_nelts (ps : PollsetState) (d : Pollfd) (okR okW : Bool) :
    (fspr_pollset_remove ps d okR okW).state.nelts = ps.nelts := by
  cases hs : scanRemove ps.pfdOf d.desc ps.queryRing with
  | none => simp [fspr_pollset_remove, hs]
  | some p =>
      obtain ⟨ep, q⟩ := p
      simp [fspr_pollset_remove, hs]

theorem poll_nelts (ps : PollsetState) (t : Int) (w : WaitResult) (wd : Bool) :
    (fspr_pollset_poll ps t w wd).state.nelts = ps.nelts := by
  cases w with
  | err e => simp [fspr_pollset_poll]
  | events evs =>
      simp only [fspr_pollset_poll]
      split <;> simp

theorem runOps_nelts (ps : PollsetState) (ops : List Op) :
    (runOps ps ops).nelts = ps.nelts + countSuccessfulAdds ps ops := by
  induction ops generalizing ps with
  | nil => simp [runOps, countSuccessfulAdds]
  | cons op rest ih =>
      cases op with
      | add d okR okW =>
          simp only [runOps, runOp, countSuccessfulAdds]
          rw [ih, add_nelts]
          omega
      | remove d okR okW =>
          simp only [runOps, runOp, countSuccessfulAdds]
          rw [ih, remove_nelts]
      | poll t w wd =>
          simp only [runOps, runOp, countSuccessfulAdds]
          rw [ih, poll_nelts]

/-- C2 counterexample: after a successful add of a descriptor followed by
a successful remove of it, `nelts` is still 1 while the Active ring is
empty — `fspr_pollset_remove` moves the record off the Active ring without
decrementing `nelts`, so the count does not equal the Active-ring size. -/
theorem C2_count_cex :
    (runOps (initState 4) [Op.add ⟨1, 7, APR_POLLIN, 0⟩ true true,
        Op.remove ⟨1, 7, APR_POLLIN, 0⟩ true true]).nelts = 1 ∧
    (runOps (initState 4) [Op.add ⟨1, 7, APR_POLLIN, 0⟩ true true,
        Op.remove ⟨1, 7, APR_POLLIN, 0⟩ true true]).queryRing = [] ∧
    (runOps (initState 4) [Op.add ⟨1, 7, APR_POLLIN, 0⟩ true true,
        Op.remove ⟨1, 7, APR_POLLIN, 0⟩ true true]).nelts
      ≠ (runOps (initState 4) [Op.add ⟨1, 7, APR_POLLIN, 0⟩ true true,
          Op.remove ⟨1, 7, APR_POLLIN, 0⟩ true true]).queryRing.length := by
  decide

/-- C2 amended: after every sequence of add, remove, and poll operations,
`nelts` equals the number of adds in the sequence that returned success;
a successful add increments it together with the Active-ring insertion,
but remove — even one that unlinks a previously added descriptor from the
Active ring — leaves the count unchanged. -/
theorem C2_amended_count (size : Nat) (ops : List Op) :
    (runOps (initState size) ops).nelts = countSuccessfulAdds (initState size) ops ∧
    ∀ (ps : PollsetState) (d : Pollfd) (okR okW : Bool),
      (fspr_pollset_remove ps d okR okW).state.nelts = ps.nelts := by
  exact ⟨by simpa [initState] using runOps_nelts (initState size) ops,
    fun ps d okR okW => remove_nelts ps d okR okW⟩

/-! ## Ring exclusivity -/

theorem scanRemove_perm (pf : Nat → Pollfd) (dsc : Nat) :
    ∀ (l l2 : List Nat) (m : Nat),
      scanRemove pf dsc l = some (m, l2) → l.Perm (m :: l2) := by
  intro l
  induction l with
  | nil => intro l2 m h; simp [scanRemove] at h
  | cons e rest ih =>
      intro l2 m h
      simp only [scanRemove] at h
      by_cases hd : (pf e).desc = dsc
      · rw [if_pos hd] at h
        simp only [Option.some.injEq, Prod.mk.injEq] at h
        obtain ⟨rfl, rfl⟩ := h
        exact List.Perm.refl _
      · rw [if_neg hd] at h
        cases hs : scanRemove pf dsc rest with
        | none => rw [hs] at h; cases h
        | some p =>
            obtain ⟨m2, rest2⟩ := p
            rw [hs] at h
            simp only [Option.some.injEq, Prod.mk.injEq] at h
            obtain ⟨rfl, rfl⟩ := h
            exact (List.Perm.cons e (ih rest2 m2 hs)).trans
              (List.Perm.swap m2 e rest2)

theorem addWithElem_rings (ps : PollsetState) (d : Pollfd) (okR okW : Bool)
    (elem : Nat) :
    ((addWithElem ps d okR okW elem).state.queryRing = ps.queryRing ++ [elem] ∧
     (addWithElem ps d okR okW elem).state.freeRing = ps.freeRing ∧
     (addWithElem ps d okR okW elem).state.deadRing = ps.deadRing ∧
     (addWithElem ps d okR okW elem).state.nextId = ps.nextId) ∨
    ((addWithElem ps d okR okW elem).state.queryRing = ps.queryRing ∧
     (addWithElem ps d okR okW elem).state.freeRing = ps.freeRing ++ [elem] ∧
     (addWithElem ps d okR okW elem).state.deadRing = ps.deadRing ∧
     (addWithElem ps d okR okW elem).state.nextId = ps.nextId) := by
  by_cases h1 : d.reqevents &&& APR_POLLIN = 0 <;>
    by_cases h2 : d.reqevents &&& APR_POLLOUT = 0 <;>
    cases okR <;> cases okW <;> simp [addWithElem, h1, h2]

theorem add_ringElems (ps : PollsetState) (d : Pollfd) (okR okW : Bool) :
    ((fspr_pollset_add ps d okR okW).state.nextId = ps.nextId ∧
     (ringElems (fspr_pollset_add ps d okR okW).state).Perm (ringElems ps)) ∨
    ((fspr_pollset_add ps d okR okW).state.nextId = ps.nextId + 1 ∧
     (ringElems (fspr_pollset_add ps d okR okW).state).Perm
       (ps.nextId :: ringElems ps)) := by
  unfold fspr_pollset_add
  cases hf : ps.freeRing with
  | cons e rest =>
      left
      rcases addWithElem_rings { ps with freeRing := rest } d okR okW e with
        ⟨hq, hfr, hd, hn⟩ | ⟨hq, hfr, hd, hn⟩ <;>
      refine ⟨by simp [hn], ?_⟩ <;>
      simp only [ringElems, hq, hfr, hd, hf] <;>
      refine List.perm_iff_count.mpr fun a => ?_ <;>
      (simp [List.count_append, List.count_cons] <;> omega)
  | nil =>
      right
      rcases addWithElem_rings { ps with freeRing := ([] : List Nat), nextId := ps.nextId + 1 } d okR okW ps.nextId with
        ⟨hq, hfr, hd, hn⟩ | ⟨hq, hfr, hd, hn⟩ <;>
      refine ⟨by simp [hn], ?_⟩ <;>
      simp only [ringElems, hq, hfr, hd, hf] <;>
      refine List.perm_iff_count.mpr fun a => ?_ <;>
      (simp [List.count_append, List.count_cons] <;> omega)

theorem remove_ringElems (ps : PollsetState) (d : Pollfd) (okR okW : Bool) :
    (fspr_pollset_remove ps d okR okW).state.nextId = ps.nextId ∧
    (ringElems (fspr_pollset_remove ps d okR okW).state).Perm (ringElems ps) := by
  cases hs : scanRemove ps.pfdOf d.desc ps.queryRing with
  | none =>
      constructor
      · simp [fspr_pollset_remove, hs]
      · simp [fspr_pollset_remove, hs, ringElems]
  | some p =>
      obtain ⟨ep, q⟩ := p
      have hperm := scanRemove_perm ps.pfdOf d.desc ps.queryRing q ep hs
      have hc := List.perm_iff_count.mp hperm
      constructor
      · simp [fspr_pollset_remove, hs]
      · simp only [fspr_pollset_remove, hs, ringElems]
        refine List.perm_iff_count.mpr fun a => ?_
        have := hc a
        simp only [List.count_append, List.count_cons] at this ⊢
        simp_all
        omega

theorem poll_rings (ps : PollsetState) (t : Int) (w : WaitResult) (wd : Bool) :
    (fspr_pollset_poll ps t w wd).state.deadRing = [] ∧
    (fspr_pollset_poll ps t w wd).state.freeRing
      = ps.freeRing ++ ps.deadRing ∧
    (fspr_pollset_poll ps t w wd).state.queryRing = ps.queryRing ∧
    (fspr_pollset_poll ps t w wd).state.nextId = ps.nextId := by
  cases w with
  | err e => simp [fspr_pollset_poll]
  | events evs =>
      simp only [fspr_pollset_poll]
      split <;> simp

theorem poll_ringElems (ps : PollsetState) (t : Int) (w : WaitResult) (wd : Bool) :
    (fspr_pollset_poll ps t w wd).state.nextId = ps.nextId ∧
    (ringElems (fspr_pollset_poll ps t w wd).state).Perm (ringElems ps) := by
  obtain ⟨hd, hfr, hq, hn⟩ := poll_rings ps t w wd
  refine ⟨hn, ?_⟩
  simp only [ringElems, hd, hfr, hq]
  refine List.perm_iff_count.mpr fun a => ?_
  simp [List.count_append]
  omega

theorem runOp_RingInv (ps : PollsetState) (op : Op) (h : RingInv ps) :
    RingInv (runOp ps op) := by
  obtain ⟨hnd, hmem⟩ := h
  cases op with
  | add d okR okW =>
      rcases add_ringElems ps d okR okW with ⟨hn, hperm⟩ | ⟨hn, hperm⟩
      · exact ⟨(hperm.nodup_iff).mpr hnd,
          fun i => by rw [runOp, hperm.mem_iff, hn]; exact hmem i⟩
      · constructor
        · refine (hperm.nodup_iff).mpr (List.nodup_cons.mpr ⟨fun hc => ?_, hnd⟩)
          have := (hmem ps.nextId).mp hc
          omega
        · intro i
          rw [runOp, hperm.mem_iff, hn, List.mem_cons, hmem i]
          omega
  | remove d okR okW =>
      obtain ⟨hn, hperm⟩ := remove_ringElems ps d okR okW
      exact ⟨(hperm.nodup_iff).mpr hnd,
        fun i => by rw [runOp, hperm.mem_iff, hn]; exact hmem i⟩
  | poll t w wd =>
      obtain ⟨hn, hperm⟩ := poll_ringElems ps t w wd
      exact ⟨(hperm.nodup_iff).mpr hnd,
        fun i => by rw [runOp, hperm.mem_iff, hn]; exact hmem i⟩

theorem runOps_RingInv (ps : PollsetState) (ops : List Op) (h : RingInv ps) :
    RingInv (runOps ps ops) := by
  induction ops generalizing ps with
  | nil => exact h
  | cons op rest ih => exact ih _ (runOp_RingInv ps op h)

theorem initState_RingInv (size : Nat) : RingInv (initState size) := by
  constructor <;> simp [initState, ringElems, RingInv]

/-- C5: after every sequence of operations on a freshly created pollset,
each allocated record belongs to exactly one of the Active, Dead, and Free
rings, and the sum of the three rings' sizes equals the number of records
ever allocated for the pollset. -/
theorem C5_ring_exclusivity (size : Nat) (ops : List Op) :
    (∀ i, i < (runOps (initState size) ops).nextId →
      ((i ∈ (runOps (initState size) ops).queryRing ∧
        i ∉ (runOps (initState size) ops).deadRing ∧
        i ∉ (runOps (initState size) ops).freeRing) ∨
       (i ∉ (runOps (initState size) ops).queryRing ∧
        i ∈ (runOps (initState size) ops).deadRing ∧
        i ∉ (runOps (initState size) ops).freeRing) ∨
       (i ∉ (runOps (initState size) ops).queryRing ∧
        i ∉ (runOps (initState size) ops).deadRing ∧
        i ∈ (runOps (initState size) ops).freeRing))) ∧
    (runOps (initState size) ops).queryRing.length
        + (runOps (initState size) ops).deadRing.length
        + (runOps (initState size) ops).freeRing.length
      = (runOps (initState size) ops).nextId := by
  obtain ⟨hnd, hmem⟩ := runOps_RingInv (initState size) ops (initState_RingInv size)
  constructor
  · intro i hi
    have hin : i ∈ ringElems (runOps (initState size) ops) := (hmem i).mpr hi
    have h1 := List.nodup_append.mp (by simpa [ringElems] using hnd)
    obtain ⟨hqnd, hdf, hqdisj⟩ := h1
    obtain ⟨hdnd, hfnd, hddisj⟩ := List.nodup_append.mp hdf
    have hin3 : i ∈ (runOps (initState size) ops).queryRing ∨
        i ∈ (runOps (initState size) ops).deadRing ∨
        i ∈ (runOps (initState size) ops).freeRing := by
      simpa [ringElems] using hin
    rcases hin3 with hq | hdm | hfm
    · exact Or.inl ⟨hq, fun hc => hqdisj hq (List.mem_append.mpr (Or.inl hc)),
        fun hc => hqdisj hq (List.mem_append.mpr (Or.inr hc))⟩
    · exact Or.inr (Or.inl ⟨fun hc => hqdisj hc (List.mem_append.mpr (Or.inl hdm)),
        hdm, fun hc => hddisj hdm hc⟩)
    · exact Or.inr (Or.inr ⟨fun hc => hqdisj hc (List.mem_append.mpr (Or.inr hfm)),
        fun hc => hddisj hc hfm, hfm⟩)
  · have hperm : (ringElems (runOps (initState size) ops)).Perm
        (List.range (runOps (initState size) ops).nextId) :=
      (List.perm_ext_iff_of_nodup hnd (List.nodup_range _)).mpr
        (fun a => by rw [hmem a, List.mem_range])
    have hlen := hperm.length_eq
    simp [ringElems] at hlen
    omega

/-- Witness for C5 after one concrete successful add: record 0 was
allocated and sits on exactly one ring. -/
theorem C5_ring_exclusivity_witness :
    0 < (runOps (initState 4) [Op.add ⟨1, 7, APR_POLLIN, 0⟩ true true]).nextId ∧
    ((0 ∈ (runOps (initState 4) [Op.add ⟨1, 7, APR_POLLIN, 0⟩ true true]).queryRing ∧
      0 ∉ (runOps (initState 4) [Op.add ⟨1, 7, APR_POLLIN, 0⟩ true true]).deadRing ∧
      0 ∉ (runOps (initState 4) [Op.add ⟨1, 7, APR_POLLIN, 0⟩ true true]).freeRing) ∨
     (0 ∉ (runOps (initState 4) [Op.add ⟨1, 7, APR_POLLIN, 0⟩ true true]).queryRing ∧
      0 ∈ (runOps (initState 4) [Op.add ⟨1, 7, APR_POLLIN, 0⟩ true true]).deadRing ∧
      0 ∉ (runOps (initState 4) [Op.add ⟨1, 7, APR_POLLIN, 0⟩ true true]).freeRing) ∨
     (0 ∉ (runOps (initState 4) [Op.add ⟨1, 7, APR_POLLIN, 0⟩ true true]).queryRing ∧
      0 ∉ (runOps (initState 4) [Op.add ⟨1, 7, APR_POLLIN, 0⟩ true true]).deadRing ∧
      0 ∈ (runOps (initState 4) [Op.add ⟨1, 7, APR_POLLIN, 0⟩ true true]).freeRing)) := by
  exact ⟨by decide,
    (C5_ring_exclusivity 4 [Op.add ⟨1, 7, APR_POLLIN, 0⟩ true true]).1 0 (by decide)⟩

end KqueuePollset
